import Mathlib

/-!
Verification development for the ClinicalTrialsNLP codification core.

Text is modelled as `List Char` (Python `str`); dictionaries as ordered
association lists (`List (key × value)`), with `none` playing the role of
Python `None`.  Filesystem state is an association list from path to file
content.  Python exceptions are modelled with `Except String`.
-/

set_option autoImplicit false

namespace CTNLP

/-! ## Character classes (Python ASCII regex semantics, `str` patterns) -/

/-- Python `\s` on ASCII strings: space, tab, newline, carriage return,
form feed, vertical tab. -/
def isPyWs (c : Char) : Bool :=
  c = ' ' || c = '\t' || c = '\n' || c = '\x0d' || c = '\x0b' || c = '\x0c'

/-- Python `\w` on ASCII strings: letters, digits and underscore. -/
def isWordChar (c : Char) : Bool :=
  ('a' ≤ c && c ≤ 'z') || ('A' ≤ c && c ≤ 'Z') || ('0' ≤ c && c ≤ '9') || c = '_'

/-- ASCII lower-casing, as done by `re.IGNORECASE` comparison on `str`. -/
def lowerChar (c : Char) : Char :=
  if 'A' ≤ c ∧ c ≤ 'Z' then Char.ofNat (c.toNat + 32) else c

def lowerSeq (l : List Char) : List Char := l.map lowerChar

def isDigitChar (c : Char) : Bool := '0' ≤ c && c ≤ '9'

/-- Python `str.strip()`: drop ASCII whitespace from both ends. -/
def pyStrip (l : List Char) : List Char :=
  ((l.dropWhile isPyWs).reverse.dropWhile isPyWs).reverse

/-- Does `l` start with the pattern `pat`? -/
def startsWithSeq : List Char → List Char → Bool
  | [], _ => true
  | _ :: _, [] => false
  | p :: ps, c :: cs => p = c && startsWithSeq ps cs

/-- Does `pat` occur as a contiguous subsequence of `l`?
Models an unanchored `re.search` for a literal pattern. -/
def containsSeq (pat : List Char) : List Char → Bool
  | [] => startsWithSeq pat []
  | c :: rest => startsWithSeq pat (c :: rest) || containsSeq pat rest

/-- Case-insensitive literal `re.search`: `pat` must already be lower case. -/
def ciContains (pat l : List Char) : Bool := containsSeq pat (lowerSeq l)

/-! ## `nlp.list_to_sentences` (the sentence normalizer, nlp.py 140-180) -/

/-- `re.sub(r'\.\s*$', '', s)`: removes a final period together with any
whitespace following it (everything before the period is kept). -/
def removeTrailingPeriod (l : List Char) : List Char :=
  match l.reverse.dropWhile isPyWs with
  | c :: rest => if c = '.' then rest.reverse else l
  | [] => l

/-- Python `str.splitlines()`: split on `\n`, `\r` and `\r\n`; a trailing
line break does not produce a final empty line.  `afterCR` records that the
previous character was `\r`, so a following `\n` is part of the same
break; `cur` is the current line in reverse. -/
def splitlinesGo : List Char → Bool → List Char → List (List Char)
  | [], _, cur => if cur.isEmpty then [] else [cur.reverse]
  | c :: rest, afterCR, cur =>
    if afterCR ∧ c = '\n' then splitlinesGo rest false cur
    else if c = '\x0d' then cur.reverse :: splitlinesGo rest true []
    else if c = '\n' then cur.reverse :: splitlinesGo rest false []
    else splitlinesGo rest false (c :: cur)

def splitlines (l : List Char) (cur : List Char) : List (List Char) :=
  splitlinesGo l false cur

/-- `re.match(r'^\s*-\s+', line)`: optional whitespace, a dash, then at
least one whitespace character. -/
def matchDashBullet (l : List Char) : Bool :=
  match l.dropWhile isPyWs with
  | '-' :: rest => match rest with
    | c :: _ => isPyWs c
    | [] => false
  | _ => false

/-- `re.match(r'\s*\d+\.\s+', line)`: optional whitespace, digits, a
period, then at least one whitespace character. -/
def matchNumberDot (l : List Char) : Bool :=
  let afterWs := l.dropWhile isPyWs
  let digits := afterWs.takeWhile isDigitChar
  match digits, afterWs.dropWhile isDigitChar with
  | _ :: _, '.' :: (c :: _) => isPyWs c
  | _, _ => false

/-- `re.match(r'^\s*(-\s*)?\d+\)\s+', line)`: optional whitespace, an
optional dash (with optional whitespace), digits, a closing parenthesis,
then at least one whitespace character. -/
def matchNumberParen (l : List Char) : Bool :=
  let afterWs := l.dropWhile isPyWs
  let afterDash :=
    match afterWs with
    | '-' :: rest => rest.dropWhile isPyWs
    | _ => afterWs
  let digits := afterDash.takeWhile isDigitChar
  match digits, afterDash.dropWhile isDigitChar with
  | _ :: _, ')' :: (c :: _) => isPyWs c
  | _, _ => false

/-- The "new line item" test of `list_to_sentences` (nlp.py 163-165). -/
def startsNewItem (l : List Char) : Bool :=
  matchDashBullet l || matchNumberDot l || matchNumberParen l

/-- The line loop of `list_to_sentences` (nlp.py 151-174); `curr` and
`processed` are the loop accumulators. -/
def sentencesLoop : List (List Char) → List Char → List (List Char) → List (List Char)
  | [], curr, processed =>
      if curr.isEmpty then processed else processed ++ [removeTrailingPeriod curr]
  | line :: rest, curr, processed =>
      if line.length = 0 then
        sentencesLoop rest []
          (if curr.isEmpty then processed else processed ++ [removeTrailingPeriod curr])
      else if curr.isEmpty then
        sentencesLoop rest (pyStrip line) processed
      else if startsNewItem line then
        sentencesLoop rest line (processed ++ [removeTrailingPeriod curr])
      else
        sentencesLoop rest (curr ++ ' ' :: pyStrip line) processed

/-- Join a list of items with the separator `". "`. -/
def joinDotSpace : List (List Char) → List Char
  | [] => []
  | [x] => x
  | x :: y :: rest => x ++ '.' :: ' ' :: joinDotSpace (y :: rest)

/-- `nlp.list_to_sentences` (nlp.py 140-180): `None` input yields `None`;
otherwise lines are re-assembled into period-joined items and a single
trailing period is appended to a non-empty result. -/
def list_to_sentences : Option (List Char) → Option (List Char)
  | none => none
  | some s =>
      let processed := sentencesLoop (splitlines s []) [] []
      let sentences := if processed.length > 0 then joinDotSpace processed else []
      some (if sentences.length > 0 then sentences ++ ['.'] else [])

/-! ## `nlp.split_inclusion_exclusion` (the text segmenter, nlp.py 86-137) -/

/-- Number of newline characters in a list. -/
def countNL (l : List Char) : Nat := (l.filter (fun c => c = '\n')).length

/-- When a pending whitespace run turns out to be a separator match, the
run's characters before its first newline still belong to the previous
token (the regex match starts at the newline).  `tok` and `pend` are in
reverse order. -/
def flushTok (tok pend : List Char) : List Char :=
  tok.reverse ++ pend.reverse.takeWhile (fun c => !(c = '\n'))

/-- `re.split(r'(?:\n\s*){2,}', text)`: greedy leftmost matching means the
text splits at every maximal whitespace run that contains at least two
newlines; the match starts at the run's first newline and consumes the
rest of the run.  `tok` is the current token and `pend` the pending
whitespace run, both accumulated in reverse. -/
def splitBlocksGo : List Char → List Char → List Char → List (List Char) → List (List Char)
  | [], tok, pend, acc =>
    if 2 ≤ countNL pend then acc ++ [flushTok tok pend, []]
    else acc ++ [(pend ++ tok).reverse]
  | c :: rest, tok, pend, acc =>
    if isPyWs c then splitBlocksGo rest tok (c :: pend) acc
    else if 2 ≤ countNL pend then
      splitBlocksGo rest [c] [] (acc ++ [flushTok tok pend])
    else
      splitBlocksGo rest (c :: (pend ++ tok)) [] acc

def splitBlocks (l : List Char) : List (List Char) := splitBlocksGo l [] [] []

/-- `re.sub(r'[\n\s]+', ' ', s)`: every maximal whitespace run becomes a
single space.  `inRun` records that the previous character was whitespace
(its space has already been emitted). -/
def collapseWsGo : List Char → Bool → List Char
  | [], _ => []
  | c :: rest, inRun =>
    if isPyWs c then
      if inRun then collapseWsGo rest true
      else ' ' :: collapseWsGo rest true
    else c :: collapseWsGo rest false

def collapseWs (l : List Char) : List Char := collapseWsGo l false

/-- The cleaning applied to each block (nlp.py 107). -/
def cleanBlock (l : List Char) : List Char := pyStrip (collapseWs l)

/-- `re.search(r'^[^\w]*inclusion criteria', clean, re.IGNORECASE)`:
after dropping the leading run of non-word characters, the text starts
with "inclusion criteria" (case-insensitively). -/
def matchesIncHeader (l : List Char) : Bool :=
  startsWithSeq ("inclusion criteria".data)
    (lowerSeq (l.dropWhile (fun c => !isWordChar c)))

/-- `re.search(r'exclusion criteria', clean, re.IGNORECASE)`. -/
def mentionsExcCriteria (l : List Char) : Bool := ciContains ("exclusion criteria".data) l

/-- `re.search(r'exclusion', clean, re.IGNORECASE)`. -/
def mentionsExclusion (l : List Char) : Bool := ciContains ("exclusion".data) l

/-- `re.search(r'inclusion', clean, re.IGNORECASE)`. -/
def mentionsInclusion (l : List Char) : Bool := ciContains ("inclusion".data) l

/-- Accumulator of the classification loop (nlp.py 97-129). -/
structure SegState where
  missed : List (List Char)
  inc : List (List Char)
  exc : List (List Char)
  at_inc : Bool
  at_exc : Bool
  deriving Repr, DecidableEq

def segInit : SegState := ⟨[], [], [], false, false⟩

/-- One iteration of the classification loop over a raw block `row`. -/
def classifyRow (st : SegState) (row : List Char) : SegState :=
  if row.length < 1 || row = "none".data then st
  else
    let clean := cleanBlock row
    if matchesIncHeader clean && !mentionsExclusion clean then
      { st with at_inc := true, at_exc := false }
    else if mentionsExcCriteria clean && !mentionsInclusion clean then
      { st with at_inc := false, at_exc := true }
    else if st.at_inc then { st with inc := st.inc ++ [clean] }
    else if st.at_exc then { st with exc := st.exc ++ [clean] }
    else { st with missed := st.missed ++ [clean] }

/-- `nlp.split_inclusion_exclusion` (nlp.py 86-137).  Raises on an empty
string; otherwise splits into blocks, classifies each and applies the
inclusion-only fallback when either bucket ends up empty. -/
def split_inclusion_exclusion (s : List Char) :
    Except String (List (List Char) × List (List Char)) :=
  if s.length < 1 then .error "No string given"
  else
    let st := (splitBlocks s).foldl classifyRow segInit
    if st.inc.length < 1 || st.exc.length < 1 then
      .ok (st.inc ++ st.missed, [])
    else
      .ok (st.inc, st.exc)

/-! ## Ordered dictionaries and sets -/

/-- Python `dict.get(k)` / `dict[k]` lookup on an insertion-ordered dict. -/
def assocGet {β : Type} : List (String × β) → String → Option β
  | [], _ => none
  | (k', v) :: rest, k => if k' = k then some v else assocGet rest k

/-- Python `dict[k] = v`: update in place if the key exists, else append. -/
def assocSet {β : Type} : List (String × β) → String → β → List (String × β)
  | [], k, v => [(k, v)]
  | (k', v') :: rest, k, v =>
    if k' = k then (k, v) :: rest else (k', v') :: assocSet rest k v

/-- Python `set.add`. -/
def setAdd (l : List String) (n : String) : List String :=
  if l.contains n then l else l ++ [n]

/-- Python `set.remove` / `list.remove`: drop the first occurrence. -/
def removeFirst : List String → String → List String
  | [], _ => []
  | x :: rest, n => if x = n then rest else x :: removeFirst rest n

/-! ## `Analyzable` (analyzable.py) -/

/-- The per-engine `codes` dictionary: code-system name to code list. -/
abbrev Codes := List (String × List String)

/-- One engine's entry in `self.codified`: the dict built in
`parse_nlp_output` (analyzable.py 125-126), holding a `date` stamp and the
`codes` dictionary.  As a two-key Python dict it is always truthy. -/
structure NLPRecord where
  date : Nat
  codes : Codes
  deriving Repr, DecidableEq

/-- `self.codified`: engine name to record-or-`None`; the whole attribute
may itself be `None` (freshly constructed unit). -/
abbrev CodifiedMap := List (String × Option NLPRecord)

structure AnalyzableState where
  codified : Option CodifiedMap
  waiting : List String
  deriving Repr, DecidableEq

def freshAnalyzable : AnalyzableState := ⟨none, []⟩

/-- The dictionary an engine's `parse_output` returns: code-system name to
code list (a value may be `None`, which the merge loop skips). -/
abbrev PRet := List (String × Option (List String))

/-- The merge loop of `parse_nlp_output` (analyzable.py 121-123):
`for typ, val in ret.iteritems(): if val is not None: result_codes[typ] = val`. -/
def mergeCodes (codes : Codes) (ret : PRet) : Codes :=
  ret.foldl
    (fun cs tv =>
      match tv.2 with
      | some v => assocSet cs tv.1 v
      | none => cs)
    codes

/-- `Analyzable.parse_nlp_output` (analyzable.py 105-135).  `ret` is what
`nlp_engine.parse_output` returns for this unit's file, `now` the
`datetime.now()` stamp.  Returns `false` when there is no output yet.
`result_all.get(name, {})` yields a fresh empty dict only when the key is
absent; a stored `None` (attempted-empty) is returned as is, and
`result.get('codes', {})` on it raises an `AttributeError`. -/
def parse_nlp_output (name : String) (ret : Option PRet) (now : Nat)
    (st : AnalyzableState) : Except String (Bool × AnalyzableState) :=
  match ret with
  | none => .ok (false, st)
  | some r =>
    let result_all := st.codified.getD []
    let result : Option NLPRecord :=
      match assocGet result_all name with
      | none => some ⟨0, []⟩
      | some v => v
    match result with
    | none => .error "AttributeError: 'NoneType' object has no attribute 'get'"
    | some prev =>
      let result_codes := mergeCodes prev.codes r
      let result_all' := assocSet result_all name
        (if result_codes.length > 0 then some ⟨now, result_codes⟩ else none)
      .ok (true, ⟨some result_all', removeFirst st.waiting name⟩)

/-- `Analyzable.write_nlp_input` (analyzable.py 93-103).  `text` is what
`extract_string` returned; `writeOk` is the value `nlp_engine.write_input`
returns when invoked.  The second component records whether `write_input`
was invoked at all. -/
def write_nlp_input (text : Option (List Char)) (writeOk : Bool) (name : String)
    (st : AnalyzableState) : AnalyzableState × Bool :=
  match text with
  | none => (st, false)
  | some t =>
    if t.length = 0 then (st, false)
    else if writeOk then ({ st with waiting := setAdd st.waiting name }, true)
    else (st, true)

/-- The attempt test of `Analyzable.codify` (analyzable.py 85):
`if force or not self.codified or not self.codified.get(nlp.name)`.
A stored record dict is always truthy; a stored `None` or an absent key is
falsy, so only a present non-`None` record suppresses the attempt. -/
def codifyAttempts (force : Bool) (st : AnalyzableState) (name : String) : Bool :=
  force ||
    (match st.codified with
     | none => true
     | some m =>
       match assocGet m name with
       | some (some _) => false
       | _ => true)

/-- What one engine contributes per `codify` call: the outcome of its
`parse_output` and of its `write_input`, were they to be invoked. -/
structure EngineIO where
  name : String
  parseRet : Option PRet
  writeOk : Bool
  deriving Repr, DecidableEq

/-- Engine calls `codify` performs, for stating which engines it touches. -/
inductive NLPEvent where
  | parsedOutput (name : String)
  | wroteInput (name : String)
  deriving Repr, DecidableEq

/-- `self.codified.get(nlp.name)` with the dict possibly `None`. -/
def codifiedGet (st : AnalyzableState) (name : String) : Option NLPRecord :=
  match st.codified with
  | none => none
  | some m =>
    match assocGet m name with
    | some v => v
    | none => none

/-- The engine loop of `Analyzable.codify` (analyzable.py 83-91), also
accumulating the trace of engine calls made. -/
def codifyLoop (force : Bool) (text : Option (List Char)) (now : Nat) :
    List EngineIO → AnalyzableState → List (String × Option NLPRecord) →
    List NLPEvent →
    Except String ((List (String × Option NLPRecord)) × AnalyzableState × List NLPEvent)
  | [], st, allNew, evs => .ok (allNew, st, evs)
  | e :: rest, st, allNew, evs =>
    if codifyAttempts force st e.name then
      match parse_nlp_output e.name e.parseRet now st with
      | .error msg => .error msg
      | .ok (true, st') =>
        codifyLoop force text now rest st'
          (assocSet allNew e.name (codifiedGet st' e.name))
          (evs ++ [.parsedOutput e.name])
      | .ok (false, st') =>
        let (st'', wrote) := write_nlp_input text e.writeOk e.name st'
        codifyLoop force text now rest st'' allNew
          (evs ++ .parsedOutput e.name ::
            (if wrote then [.wroteInput e.name] else []))
    else
      codifyLoop force text now rest st allNew evs

/-- `Analyzable.codify` (analyzable.py 76-91): returns the dict of newly
codified engines, or `None` when there are none, together with the new
state and the trace of engine calls. -/
def codify (engines : List EngineIO) (force : Bool) (text : Option (List Char))
    (now : Nat) (st : AnalyzableState) :
    Except String (Option (List (String × Option NLPRecord)) × AnalyzableState × List NLPEvent) :=
  match codifyLoop force text now engines st [] [] with
  | .error msg => .error msg
  | .ok (allNew, st', evs) =>
    .ok (if allNew.length > 0 then some allNew else none, st', evs)

/-! ## `EligibilityCriteria` criterion handling (eligibilitycriteria.py) -/

/-- One criterion dictionary (eligibilitycriteria.py 91): keys may be
absent, which `Option` models. -/
structure Criterion where
  id : String
  is_inclusion : Bool
  text : Option (List Char)
  snomed : Option (List String)
  cui_ctakes : Option (List String)
  rxnorm_ctakes : Option (List String)
  cui_metamap : Option (List String)
  waiting_for_nlp : Option (List String)
  deriving Repr, DecidableEq

/-- A fresh criterion as `_process` builds it. -/
def freshCriterion (id : String) (isInc : Bool) (text : List Char) : Criterion :=
  ⟨id, isInc, some text, none, none, none, none, none⟩

/-- `parse_output` result as the criterion code consumes it: code-system
name to code list. -/
abbrev CRet := List (String × List String)

def hasKey (m : CRet) (k : String) : Bool := (assocGet m k).isSome

/-- `EligibilityCriteria.criterion_parse_nlp_output`
(eligibilitycriteria.py 161-200).  The skip test (166-171) consults only
the stored codes; the `force` argument is never used by the body. -/
def criterion_parse_nlp_output (name : String) (ret : Option CRet)
    (_force : Bool) (c : Criterion) : Bool × Criterion :=
  if name = "ctakes" ∧ c.snomed ≠ none then (true, c)
  else if name = "metamap" ∧ c.cui_metamap ≠ none then (true, c)
  else
    match ret with
    | none => (false, c)
    | some r =>
      let c1 :=
        if name = "ctakes" then
          let ca := if hasKey r "snomed" then
              { c with snomed := some ((assocGet r "snomed").getD []) } else c
          let cb := if hasKey r "cui" then
              { ca with cui_ctakes := some ((assocGet r "cui").getD []) } else ca
          if hasKey r "rxnorm" then
            { cb with rxnorm_ctakes := some ((assocGet r "rxnorm").getD []) } else cb
        else if name = "metamap" then
          if hasKey r "cui" then
            { c with cui_metamap := some ((assocGet r "cui").getD []) } else c
        else c
      let c2 :=
        match c1.waiting_for_nlp with
        | some w =>
          if w.contains name then { c1 with waiting_for_nlp := some (removeFirst w name) }
          else c1
        | none => c1
      (true, c2)

/-- `EligibilityCriteria.criterion_write_nlp_input`
(eligibilitycriteria.py 142-159).  `writeOk` is what `nlp.write_input`
returns; on failure the waiting flag is still set whenever the engine's
cui list is absent or empty. -/
def criterion_write_nlp_input (name : String) (writeOk : Bool) (c : Criterion) : Criterion :=
  let wait :=
    if writeOk then true
    else
      let arr := if name = "ctakes" then c.cui_ctakes else c.cui_metamap
      match arr with
      | none => true
      | some a => a.length < 1
  if wait then
    { c with waiting_for_nlp := some (c.waiting_for_nlp.getD [] ++ [name]) }
  else c

/-- Engine outcomes as seen by a criterion. -/
structure CEngineIO where
  name : String
  parseRet : Option CRet
  writeOk : Bool
  deriving Repr, DecidableEq

/-- The engine loop of `EligibilityCriteria.criterion_codify`
(eligibilitycriteria.py 138-140). -/
def criterion_codify (engines : List CEngineIO) (c : Criterion) : Criterion :=
  engines.foldl
    (fun c e =>
      let (parsed, c') := criterion_parse_nlp_output e.name e.parseRet false c
      if parsed then c' else criterion_write_nlp_input e.name e.writeOk c')
    c

/-! ## Engine adapters: `cTAKES.write_input` / `MetaMap.write_input` -/

/-- Filesystem model: association list from path to content; directories
are entries too (their content is ignored). -/
abbrev FS := List (String × List Char)

/-- `os.path.exists`. -/
def fsExists (fs : FS) (p : String) : Bool := fs.any (fun e => e.1 = p)

/-- `cTAKES.write_input` (ctakes.py 49-68): returns `false` without
touching the filesystem when the text is absent or empty, the filename is
absent, the input directory is missing, or the file already exists;
otherwise writes `list_to_sentences(text)` to the file. -/
def ctakesWriteInput (root : Option String) (text : Option (List Char))
    (filename : Option String) (fs : FS) : Bool × FS :=
  match text, filename with
  | none, _ => (false, fs)
  | some _, none => (false, fs)
  | some t, some f =>
    if t.length < 1 then (false, fs)
    else
      let in_dir := (root.getD ".") ++ "/ctakes_input"
      if !fsExists fs in_dir then (false, fs)
      else
        let infile := in_dir ++ "/" ++ f
        if fsExists fs infile then (false, fs)
        else (true, fs ++ [(infile, (list_to_sentences (some t)).getD [])])

/-- `MetaMap.write_input` (metamap.py 52-70): same checks; writes
`text.encode('ascii', 'ignore')`, which drops non-ASCII characters. -/
def metamapWriteInput (root : String) (text : Option (List Char))
    (filename : Option String) (fs : FS) : Bool × FS :=
  match text, filename with
  | none, _ => (false, fs)
  | some _, none => (false, fs)
  | some t, some f =>
    if t.length < 1 then (false, fs)
    else
      let in_dir := root ++ "/metamap_input"
      if !fsExists fs in_dir then (false, fs)
      else
        let infile := in_dir ++ "/" ++ f
        if fsExists fs infile then (false, fs)
        else (true, fs ++ [(infile, t.filter (fun c => c.toNat < 128))])

/-! ## `Runner._run` engine stage (runner.py 160-184) -/

/-- One configured pipeline as the engine stage sees it: its name and
whether its `run()` raises. -/
structure RunEngine where
  name : String
  failsRun : Bool
  deriving Repr, DecidableEq

/-- The engine loop of `Runner._run` (runner.py 161-173): engines whose
name is in `nlp_to_run` are run in order; with `catch_exceptions` a
failure sets `success = False` and `break`s out of the loop, without it
the exception propagates.  Returns the names actually run and the
`success` flag. -/
def runnerEnginePass (catchEx : Bool) :
    List RunEngine → List String → List String → Except String (List String × Bool)
  | [], _, ran => .ok (ran, true)
  | nlp :: rest, toRun, ran =>
    if toRun.contains nlp.name then
      if nlp.failsRun then
        if catchEx then .ok (ran, false)
        else .error ("Running " ++ nlp.name ++ " failed")
      else runnerEnginePass catchEx rest toRun (ran ++ [nlp.name])
    else runnerEnginePass catchEx rest toRun ran

/-- The harvest pass of `Runner._run` (runner.py 176-178): only when the
engine stage succeeded is `codify_analyzables` invoked again on every
trial; otherwise the trials (and whatever codes the first pass already
harvested into them) are left exactly as they are. -/
def runnerHarvestPass {α : Type} (success : Bool) (codifyOne : α → α)
    (trials : List α) : List α :=
  if success then trials.map codifyOne else trials

/-! ## `Analyzable` identifiers (analyzable.py 19-31) -/

/-- The identity-bearing part of an `Analyzable`: `__init__` stores the
object and keypath and sets `self._uuid = None`. -/
structure AnalyzableIdent (O : Type) where
  obj : Option O
  keypath : Option String
  uuidCache : Option Nat
  deriving Repr, DecidableEq

def analyzableInit {O : Type} (obj : Option O) (keypath : Option String) :
    AnalyzableIdent O :=
  ⟨obj, keypath, none⟩

/-- `uuid.uuid4()`: the next value of the process's random stream `g`,
together with the advanced stream position. -/
def uuid4 (g : Nat → Nat) (ctr : Nat) : Nat × Nat := (g ctr, ctr + 1)

/-- The `uuid` property (analyzable.py 27-31): lazily draws a fresh
random UUID and caches it on the instance. -/
def analyzableUuid {O : Type} (g : Nat → Nat) (ctr : Nat) (a : AnalyzableIdent O) :
    Nat × Nat × AnalyzableIdent O :=
  match a.uuidCache with
  | some u => (u, ctr, a)
  | none =>
    let (u, ctr') := uuid4 g ctr
    (u, ctr', { a with uuidCache := some u })

/-! ## Row predicates used to state segmentation properties -/

/-- Rows dropped by the loop's filter (nlp.py 104). -/
def survivesFilter (row : List Char) : Bool :=
  !(row.length < 1 || row = "none".data)

/-- A row that switches to inclusion mode (nlp.py 112-115). -/
def isIncSwitch (row : List Char) : Bool :=
  matchesIncHeader (cleanBlock row) && !mentionsExclusion (cleanBlock row)

/-- A row that switches to exclusion mode (nlp.py 118-121). -/
def isExcSwitch (row : List Char) : Bool :=
  mentionsExcCriteria (cleanBlock row) && !mentionsInclusion (cleanBlock row)

/-- A surviving row that switches no mode: it lands in the current bucket. -/
def isContentRow (row : List Char) : Bool :=
  survivesFilter row && !isIncSwitch row && !isExcSwitch row

/-- Single-line text: no line-break characters. -/
abbrev noLineBreak (l : List Char) : Prop := ∀ c ∈ l, c ≠ '\n' ∧ c ≠ '\x0d'

/-! # Theorems -/

/-! ### List helper lemmas -/

theorem dropWhile_sfx (p : Char → Bool) (l : List Char) :
    ∃ t, t ++ l.dropWhile p = l := by
  induction l with
  | nil => exact ⟨[], rfl⟩
  | cons a as ih =>
    rw [List.dropWhile_cons]
    by_cases hp : p a
    · obtain ⟨t, ht⟩ := ih
      exact ⟨a :: t, by simp [hp, ht]⟩
    · exact ⟨[], by simp [hp]⟩

theorem mem_of_mem_dropWhile (p : Char → Bool) (l : List Char) (c : Char)
    (h : c ∈ l.dropWhile p) : c ∈ l := by
  obtain ⟨t, ht⟩ := dropWhile_sfx p l
  rw [← ht]
  exact List.mem_append_right t h

theorem head?_dropWhile (p : Char → Bool) (l : List Char) (c : Char)
    (h : (l.dropWhile p).head? = some c) : p c = false := by
  induction l with
  | nil => simp at h
  | cons a as ih =>
    rw [List.dropWhile_cons] at h
    by_cases hp : p a
    · rw [if_pos hp] at h
      exact ih h
    · rw [if_neg hp] at h
      simp at h
      subst h
      simpa using hp

theorem pyStrip_pre_dropWhile (l : List Char) :
    ∃ t, pyStrip l ++ t = l.dropWhile isPyWs := by
  obtain ⟨t, ht⟩ := dropWhile_sfx isPyWs (l.dropWhile isPyWs).reverse
  refine ⟨t.reverse, ?_⟩
  have := congrArg List.reverse ht
  simpa [pyStrip] using this

theorem head?_pyStrip (l : List Char) (c : Char)
    (h : (pyStrip l).head? = some c) : isPyWs c = false := by
  obtain ⟨t, ht⟩ := pyStrip_pre_dropWhile l
  cases hs : pyStrip l with
  | nil => rw [hs] at h; simp at h
  | cons a as =>
    rw [hs] at h
    simp at h
    rw [hs] at ht
    have : (l.dropWhile isPyWs).head? = some a := by
      rw [← ht]; simp
    rw [← h]
    exact head?_dropWhile isPyWs l a this

theorem mem_pyStrip (l : List Char) (c : Char) (h : c ∈ pyStrip l) : c ∈ l := by
  obtain ⟨t, ht⟩ := pyStrip_pre_dropWhile l
  have : c ∈ l.dropWhile isPyWs := by
    rw [← ht]
    exact List.mem_append_left t h
  exact mem_of_mem_dropWhile isPyWs l c this

theorem removeTrailingPeriod_pre (l : List Char) :
    ∃ t, removeTrailingPeriod l ++ t = l := by
  unfold removeTrailingPeriod
  cases hr : l.reverse.dropWhile isPyWs with
  | nil => exact ⟨[], by simp⟩
  | cons c rest =>
    by_cases hc : c = '.'
    · obtain ⟨w, hw⟩ := dropWhile_sfx isPyWs l.reverse
      rw [hr] at hw
      refine ⟨c :: w.reverse, ?_⟩
      have := congrArg List.reverse hw
      simp at this
      simpa [hc] using this
    · exact ⟨[], by simp [hc]⟩

theorem removeTrailingPeriod_append_period (y : List Char) :
    removeTrailingPeriod (y ++ ['.']) = y := by
  have hnw : isPyWs '.' = false := by decide
  have h1 : (y ++ ['.']).reverse.dropWhile isPyWs = '.' :: y.reverse := by
    simp [List.dropWhile_cons, hnw]
  unfold removeTrailingPeriod
  rw [h1]
  simp

theorem splitlinesGo_single (x : List Char) (h : noLineBreak x) : ∀ acc,
    splitlinesGo x false acc =
      if (acc.reverse ++ x).isEmpty then [] else [acc.reverse ++ x] := by
  induction x with
  | nil =>
    intro acc
    rw [splitlinesGo]
    by_cases ha : acc = []
    · simp [ha]
    · simp [ha, List.isEmpty_iff]
  | cons c rest ih =>
    intro acc
    have hc := h c (by simp)
    have hrest : noLineBreak rest := fun d hd => h d (by simp [hd])
    rw [splitlinesGo, if_neg (by simp [hc.1]), if_neg hc.2, if_neg hc.1,
      ih hrest (c :: acc)]
    simp [List.isEmpty_iff]

theorem splitlines_single (x : List Char) (h : noLineBreak x) (acc : List Char) :
    splitlines x acc = if (acc.reverse ++ x).isEmpty then [] else [acc.reverse ++ x] := by
  rw [splitlines, splitlinesGo_single x h acc]

/-! ### C9: idempotence of the sentence normalizer -/

/-- **C9.** `normalize` is idempotent on single-line, non-itemized input:
for such `x`, `list_to_sentences (list_to_sentences x) = list_to_sentences x`. -/
theorem C9_normalize_idempotent (x : List Char)
    (hline : noLineBreak x) (_hitem : startsNewItem x = false) :
    list_to_sentences (list_to_sentences (some x)) = list_to_sentences (some x) := by
  have hempty : list_to_sentences (some []) = some [] := by decide
  by_cases hx : x = []
  · rw [hx, hempty, hempty]
  · have hsplit : splitlines x [] = [x] := by
      rw [splitlines_single x hline []]
      simp [List.isEmpty_iff, hx]
    have hloop : sentencesLoop [x] [] [] =
        if (pyStrip x).isEmpty then [] else [removeTrailingPeriod (pyStrip x)] := by
      rw [sentencesLoop, if_neg (by simp [hx]), if_pos (by simp)]
      rw [sentencesLoop]
      by_cases hs : (pyStrip x).isEmpty <;> simp [hs]
    by_cases hstrip : (pyStrip x).isEmpty
    · have h1 : list_to_sentences (some x) = some [] := by
        simp [list_to_sentences, hsplit, hloop, hstrip]
      rw [h1, hempty]
    · by_cases hyne : removeTrailingPeriod (pyStrip x) = []
      · have h1 : list_to_sentences (some x) = some [] := by
          simp [list_to_sentences, hsplit, hloop, hstrip, hyne, joinDotSpace]
        rw [h1, hempty]
      · obtain ⟨a, ys, hays⟩ : ∃ a ys, removeTrailingPeriod (pyStrip x) = a :: ys := by
          cases hyc : removeTrailingPeriod (pyStrip x) with
          | nil => exact absurd hyc hyne
          | cons a ys => exact ⟨a, ys, rfl⟩
        have h1 : list_to_sentences (some x) = some (a :: (ys ++ ['.'])) := by
          simp [list_to_sentences, hsplit, hloop, hstrip, hays, joinDotSpace]
        obtain ⟨t, ht⟩ := removeTrailingPeriod_pre (pyStrip x)
        rw [hays] at ht
        have hhead : (pyStrip x).head? = some a := by
          rw [← ht]; simp
        have hanw : isPyWs a = false := head?_pyStrip x a hhead
        have hmem : ∀ c ∈ a :: ys, c ∈ x := by
          intro c hc
          apply mem_pyStrip x
          rw [← ht]
          exact List.mem_append_left t hc
        have hline2 : noLineBreak (a :: (ys ++ ['.'])) := by
          intro c hc
          rcases List.mem_cons.mp hc with h | h
          · exact hline c (hmem c (by simp [h]))
          · rcases List.mem_append.mp h with h2 | h2
            · exact hline c (hmem c (by simp [h2]))
            · simp at h2
              rw [h2]
              exact ⟨by decide, by decide⟩
        have hrtp : removeTrailingPeriod (a :: (ys ++ ['.'])) = a :: ys := by
          have h0 := removeTrailingPeriod_append_period (a :: ys)
          simpa using h0
        have hstrip2 : pyStrip (a :: (ys ++ ['.'])) = a :: (ys ++ ['.']) := by
          have hd : (a :: (ys ++ ['.'])).dropWhile isPyWs = a :: (ys ++ ['.']) :=
            List.dropWhile_cons_of_neg (by simp [hanw])
          have hnw : isPyWs '.' = false := by decide
          have hrev : (a :: (ys ++ ['.'])).reverse = '.' :: (ys.reverse ++ [a]) := by
            simp
          have hr : (a :: (ys ++ ['.'])).reverse.dropWhile isPyWs =
              (a :: (ys ++ ['.'])).reverse := by
            rw [hrev, List.dropWhile_cons]
            simp [hnw]
          rw [pyStrip, hd, hr]
          simp
        have hsplit2 : splitlines (a :: (ys ++ ['.'])) [] = [a :: (ys ++ ['.'])] := by
          rw [splitlines_single (a :: (ys ++ ['.'])) hline2 []]
          simp
        have hloop3 : sentencesLoop [a :: (ys ++ ['.'])] [] [] = [a :: ys] := by
          rw [sentencesLoop, if_neg (by simp), if_pos (by simp)]
          rw [hstrip2, sentencesLoop, if_neg (by simp [List.isEmpty_iff]), hrtp]
          simp
        have h2 : list_to_sentences (some (a :: (ys ++ ['.']))) =
            some (a :: (ys ++ ['.'])) := by
          simp [list_to_sentences, hsplit2, hloop3, joinDotSpace]
        rw [h1, h2]

/-- Witness for C9 at the concrete input `"Age > 18"`. -/
theorem C9_normalize_idempotent_witness :
    list_to_sentences (list_to_sentences (some "Age > 18".data)) =
      list_to_sentences (some "Age > 18".data) :=
  C9_normalize_idempotent "Age > 18".data (by decide) (by decide)

/-! ### Classification-loop lemmas for the segmenter -/

theorem bool_not_true {b : Bool} (h : (!b) = true) : b = false := by
  cases b <;> simp_all

theorem bool_not_false {b : Bool} (h : (!b) = false) : b = true := by
  cases b <;> simp_all

theorem startsWithSeq_append_left (p q s : List Char)
    (h : startsWithSeq (p ++ q) s = true) : startsWithSeq p s = true := by
  induction p generalizing s with
  | nil => rfl
  | cons a ps ih =>
    cases s with
    | nil => simp [startsWithSeq] at h
    | cons c cs =>
      simp only [List.cons_append, startsWithSeq, Bool.and_eq_true] at h ⊢
      exact ⟨h.1, ih cs h.2⟩

theorem containsSeq_of_startsWith (pat v : List Char)
    (h : startsWithSeq pat v = true) : containsSeq pat v = true := by
  cases v with
  | nil => simpa [containsSeq] using h
  | cons c cs => simp [containsSeq, h]

theorem containsSeq_append_right (pat u v : List Char)
    (h : containsSeq pat v = true) : containsSeq pat (u ++ v) = true := by
  induction u with
  | nil => simpa using h
  | cons a us ih => simp [containsSeq, ih]

theorem matchesIncHeader_mentions (l : List Char)
    (h : matchesIncHeader l = true) : mentionsInclusion l = true := by
  unfold matchesIncHeader at h
  have hsp : ("inclusion criteria".data : List Char) =
      "inclusion".data ++ " criteria".data := by decide
  rw [hsp] at h
  have h1 : startsWithSeq ("inclusion".data)
      (lowerSeq (l.dropWhile (fun c => !isWordChar c))) = true :=
    startsWithSeq_append_left _ _ _ h
  obtain ⟨t, ht⟩ := dropWhile_sfx (fun c => !isWordChar c) l
  have h2 : containsSeq ("inclusion".data)
      (lowerSeq (l.dropWhile (fun c => !isWordChar c))) = true :=
    containsSeq_of_startsWith _ _ h1
  unfold mentionsInclusion ciContains
  rw [← ht, lowerSeq, List.map_append]
  exact containsSeq_append_right _ _ _ h2

theorem isIncSwitch_false_of_excSwitch (r : List Char)
    (h : isExcSwitch r = true) : isIncSwitch r = false := by
  simp only [isExcSwitch, Bool.and_eq_true] at h
  by_cases hm : matchesIncHeader (cleanBlock r) = true
  · have hmi := matchesIncHeader_mentions (cleanBlock r) hm
    have := bool_not_true h.2
    rw [hmi] at this
    simp at this
  · simp only [Bool.not_eq_true] at hm
    simp [isIncSwitch, hm]

/-- The raw skip condition of the loop's filter (nlp.py 104). -/
theorem survivesFilter_false (r : List Char) (h : survivesFilter r = false) :
    (decide (r.length < 1) || decide (r = "none".data)) = true := by
  unfold survivesFilter at h
  exact bool_not_false h

theorem survivesFilter_true (r : List Char) (h : survivesFilter r = true) :
    (decide (r.length < 1) || decide (r = "none".data)) = false := by
  unfold survivesFilter at h
  exact bool_not_true h

theorem classifyRow_skip (st : SegState) (r : List Char)
    (h : survivesFilter r = false) : classifyRow st r = st := by
  simp only [classifyRow]
  rw [if_pos (survivesFilter_false r h)]

theorem classifyRow_content (st : SegState) (r : List Char)
    (hc : isContentRow r = true) :
    classifyRow st r =
      if st.at_inc then { st with inc := st.inc ++ [cleanBlock r] }
      else if st.at_exc then { st with exc := st.exc ++ [cleanBlock r] }
      else { st with missed := st.missed ++ [cleanBlock r] } := by
  simp only [isContentRow, Bool.and_eq_true] at hc
  obtain ⟨⟨hs, hi⟩, he⟩ := hc
  have hi' := bool_not_true hi
  have he' := bool_not_true he
  simp only [classifyRow]
  rw [if_neg (by rw [survivesFilter_true r hs]; simp)]
  rw [if_neg (by simpa [isIncSwitch] using hi')]
  rw [if_neg (by simpa [isExcSwitch] using he')]

theorem classifyRow_incSwitch (st : SegState) (r : List Char)
    (hs : survivesFilter r = true) (h : isIncSwitch r = true) :
    classifyRow st r = { st with at_inc := true, at_exc := false } := by
  simp only [classifyRow]
  rw [if_neg (by rw [survivesFilter_true r hs]; simp)]
  rw [if_pos (by simpa [isIncSwitch] using h)]

theorem classifyRow_excSwitch (st : SegState) (r : List Char)
    (hs : survivesFilter r = true) (h : isExcSwitch r = true) :
    classifyRow st r = { st with at_inc := false, at_exc := true } := by
  have hni := isIncSwitch_false_of_excSwitch r h
  simp only [classifyRow]
  rw [if_neg (by rw [survivesFilter_true r hs]; simp)]
  rw [if_neg (by simpa [isIncSwitch] using hni)]
  rw [if_pos (by simpa [isExcSwitch] using h)]

theorem foldl_pre (rows : List (List Char)) : ∀ st : SegState,
    (∀ r ∈ rows, isContentRow r = true ∨ survivesFilter r = false) →
    st.at_inc = false → st.at_exc = false →
    rows.foldl classifyRow st =
      { st with missed := st.missed ++ (rows.filter survivesFilter).map cleanBlock } := by
  induction rows with
  | nil => intro st _ _ _; cases st; simp
  | cons r rs ih =>
    intro st hall hai hae
    rcases hall r (by simp) with hc | hf
    · have hsurv : survivesFilter r = true := by
        simp only [isContentRow, Bool.and_eq_true] at hc
        exact hc.1.1
      rw [List.foldl_cons, classifyRow_content st r hc, if_neg (by simp [hai]),
        if_neg (by simp [hae]),
        ih { st with missed := st.missed ++ [cleanBlock r] }
          (fun d hd => hall d (by simp [hd])) hai hae]
      simp [List.filter_cons, hsurv]
    · rw [List.foldl_cons, classifyRow_skip st r hf,
        ih st (fun d hd => hall d (by simp [hd])) hai hae]
      simp [List.filter_cons, hf]

theorem foldl_content_inc (rows : List (List Char)) : ∀ st : SegState,
    (∀ r ∈ rows, isContentRow r = true) → st.at_inc = true →
    rows.foldl classifyRow st = { st with inc := st.inc ++ rows.map cleanBlock } := by
  induction rows with
  | nil => intro st _ _; cases st; simp
  | cons r rs ih =>
    intro st hall hat
    rw [List.foldl_cons, classifyRow_content st r (hall r (by simp)), if_pos hat,
      ih { st with inc := st.inc ++ [cleanBlock r] }
        (fun d hd => hall d (by simp [hd])) hat]
    simp

theorem foldl_content_exc (rows : List (List Char)) : ∀ st : SegState,
    (∀ r ∈ rows, isContentRow r = true) → st.at_inc = false → st.at_exc = true →
    rows.foldl classifyRow st = { st with exc := st.exc ++ rows.map cleanBlock } := by
  induction rows with
  | nil => intro st _ _ _; cases st; simp
  | cons r rs ih =>
    intro st hall hai hae
    rw [List.foldl_cons, classifyRow_content st r (hall r (by simp)),
      if_neg (by simp [hai]), if_pos hae,
      ih { st with exc := st.exc ++ [cleanBlock r] }
        (fun d hd => hall d (by simp [hd])) hai hae]
    simp

/-! ### C4: the inclusion-only fallback discards classified exclusion blocks -/

/-- **C4 counterexample.** On `"Exclusion Criteria:\n\nPregnant"` the scan
classifies the block `"Pregnant"` as exclusion, yet the fallback returns
`([], [])`: the classified exclusion block is discarded, not returned as
inclusion as the claim states. -/
theorem C4_counterexample :
    ((splitBlocks "Exclusion Criteria:\n\nPregnant".data).foldl classifyRow segInit).exc
        = ["Pregnant".data] ∧
    split_inclusion_exclusion "Exclusion Criteria:\n\nPregnant".data = .ok ([], []) :=
  ⟨rfl, rfl⟩

/-- **C4 (amended).** When, after the header scan, the inclusion list or the
exclusion list is empty, `split_inclusion_exclusion` returns the classified
inclusion blocks followed by the unclassified bucket as inclusion-only, with
exclusion empty; blocks that had been classified as exclusion are discarded. -/
theorem C4_fallback_keeps_inclusion_and_missed (s : List Char) (h1 : 1 ≤ s.length)
    (h2 : ((splitBlocks s).foldl classifyRow segInit).inc = [] ∨
          ((splitBlocks s).foldl classifyRow segInit).exc = []) :
    split_inclusion_exclusion s =
      .ok (((splitBlocks s).foldl classifyRow segInit).inc ++
           ((splitBlocks s).foldl classifyRow segInit).missed, []) := by
  unfold split_inclusion_exclusion
  rw [if_neg (by omega)]
  rcases h2 with h | h <;> simp [h]

/-- Witness for C4 (amended) at `"Hello\n\nWorld"`. -/
theorem C4_fallback_keeps_inclusion_and_missed_witness :
    split_inclusion_exclusion "Hello\n\nWorld".data =
      .ok (["Hello".data, "World".data], []) := by
  have h := C4_fallback_keeps_inclusion_and_missed "Hello\n\nWorld".data
    (by decide) (Or.inl rfl)
  rw [h]
  rfl

/-! ### C8: header-partitioned texts -/

/-- **C8 counterexample.** `"Inclusion Criteria:\n\nA\n\nExclusion Criteria:"`
contains an inclusion-criteria header block followed by an
exclusion-criteria header block (case-insensitive, neither mentioning the
other word), yet `split_inclusion_exclusion` returns an empty exclusion
list, because nothing follows the exclusion header and the fallback fires. -/
theorem C8_counterexample :
    (matchesIncHeader (cleanBlock "Inclusion Criteria:".data) = true ∧
     mentionsExclusion (cleanBlock "Inclusion Criteria:".data) = false ∧
     mentionsExcCriteria (cleanBlock "Exclusion Criteria:".data) = true ∧
     mentionsInclusion (cleanBlock "Exclusion Criteria:".data) = false ∧
     splitBlocks "Inclusion Criteria:\n\nA\n\nExclusion Criteria:".data =
       ["Inclusion Criteria:".data, "A".data, "Exclusion Criteria:".data]) ∧
    split_inclusion_exclusion "Inclusion Criteria:\n\nA\n\nExclusion Criteria:".data =
      .ok (["A".data], []) :=
  ⟨⟨rfl, rfl, rfl, rfl, rfl⟩, rfl⟩

/-- **C8 (amended).** For any text whose block split is: possibly some
non-header blocks, an inclusion-criteria header block, at least one content
block, an exclusion-criteria header block, and at least one content block,
the result is non-empty inclusion and exclusion lists partitioned exactly
at the headers, with the header blocks in neither list. -/
theorem C8_partition (s : List Char) (pre incRows excRows : List (List Char))
    (hInc hExc : List Char)
    (hsplit : splitBlocks s = pre ++ hInc :: (incRows ++ hExc :: excRows))
    (hlen : 1 ≤ s.length)
    (hpre : ∀ r ∈ pre, isContentRow r = true ∨ survivesFilter r = false)
    (hhs : survivesFilter hInc = true) (hhi : isIncSwitch hInc = true)
    (hes : survivesFilter hExc = true) (hhe : isExcSwitch hExc = true)
    (hic : ∀ r ∈ incRows, isContentRow r = true)
    (hec : ∀ r ∈ excRows, isContentRow r = true)
    (hne1 : incRows ≠ []) (hne2 : excRows ≠ []) :
    split_inclusion_exclusion s =
      .ok (incRows.map cleanBlock, excRows.map cleanBlock) ∧
    incRows.map cleanBlock ≠ [] ∧ excRows.map cleanBlock ≠ [] := by
  have hfold : (splitBlocks s).foldl classifyRow segInit =
      { missed := (pre.filter survivesFilter).map cleanBlock,
        inc := incRows.map cleanBlock,
        exc := excRows.map cleanBlock,
        at_inc := false, at_exc := true } := by
    rw [hsplit, List.foldl_append, foldl_pre pre segInit hpre rfl rfl,
      List.foldl_cons, classifyRow_incSwitch _ hInc hhs hhi,
      List.foldl_append, foldl_content_inc incRows _ hic rfl,
      List.foldl_cons, classifyRow_excSwitch _ hExc hes hhe,
      foldl_content_exc excRows _ hec rfl rfl]
    simp [segInit]
  refine ⟨?_, by simp [hne1], by simp [hne2]⟩
  unfold split_inclusion_exclusion
  rw [if_neg (by omega), hfold]
  simp [Nat.lt_one_iff, List.length_eq_zero, hne1, hne2]

/-- Witness for C8 (amended) on the spec's end-to-end example text. -/
theorem C8_partition_witness :
    split_inclusion_exclusion
        "Inclusion Criteria:\n\n- Age > 18\n\nExclusion Criteria:\n\n- Pregnant".data =
      .ok (["- Age > 18".data], ["- Pregnant".data]) ∧
    (["- Age > 18".data] : List (List Char)).map cleanBlock ≠ [] ∧
    (["- Pregnant".data] : List (List Char)).map cleanBlock ≠ [] := by
  have h := C8_partition
    "Inclusion Criteria:\n\n- Age > 18\n\nExclusion Criteria:\n\n- Pregnant".data
    [] ["- Age > 18".data] ["- Pregnant".data]
    "Inclusion Criteria:".data "Exclusion Criteria:".data
    rfl (by decide) (by simp) rfl rfl rfl rfl
    (by decide) (by decide) (by simp) (by simp)
  simpa using h

/-! ### C5: adapter `write_input` is write-once with no side effect on failure -/

theorem fsExists_append (fs l : FS) (p : String) :
    fsExists (fs ++ l) p = (fsExists fs p || fsExists l p) := by
  simp [fsExists, List.any_append]

theorem ctakes_no_write_cases (root : Option String) (t : Option (List Char))
    (f : String) (fs : FS) :
    ctakesWriteInput root none (some f) fs = (false, fs) ∧
    ctakesWriteInput root (some []) (some f) fs = (false, fs) ∧
    ctakesWriteInput root t none fs = (false, fs) ∧
    (fsExists fs ((root.getD ".") ++ "/ctakes_input") = false →
      ctakesWriteInput root t (some f) fs = (false, fs)) ∧
    (fsExists fs ((root.getD ".") ++ "/ctakes_input" ++ "/" ++ f) = true →
      ctakesWriteInput root t (some f) fs = (false, fs)) := by
  refine ⟨rfl, rfl, ?_, ?_, ?_⟩
  · cases t <;> rfl
  · intro hdir
    cases t with
    | none => rfl
    | some tt =>
      simp only [ctakesWriteInput]
      by_cases hlen : tt.length < 1
      · rw [if_pos hlen]
      · rw [if_neg hlen, if_pos (by simp [hdir])]
  · intro hfile
    cases t with
    | none => rfl
    | some tt =>
      simp only [ctakesWriteInput]
      by_cases hlen : tt.length < 1
      · rw [if_pos hlen]
      · rw [if_neg hlen]
        by_cases hdir : fsExists fs ((root.getD ".") ++ "/ctakes_input") = true
        · rw [if_neg (by simp [hdir]), if_pos hfile]
        · rw [if_pos (by simp [Bool.not_eq_true] at hdir; simp [hdir])]

theorem ctakes_write_once (root : Option String) (t : Option (List Char)) (f : String)
    (fs fs' : FS) (h : ctakesWriteInput root t (some f) fs = (true, fs')) :
    ctakesWriteInput root t (some f) fs' = (false, fs') := by
  cases t with
  | none => simp [ctakesWriteInput] at h
  | some tt =>
    simp only [ctakesWriteInput] at h ⊢
    by_cases hlen : tt.length < 1
    · rw [if_pos hlen] at h; simp at h
    · rw [if_neg hlen] at h
      rw [if_neg hlen]
      by_cases hdir : fsExists fs ((root.getD ".") ++ "/ctakes_input") = true
      · rw [if_neg (by simp [hdir])] at h
        by_cases hfile :
            fsExists fs ((root.getD ".") ++ "/ctakes_input" ++ "/" ++ f) = true
        · rw [if_pos hfile] at h; simp at h
        · rw [if_neg hfile] at h
          simp only [Prod.mk.injEq, true_and] at h
          rw [← h]
          rw [if_neg (by simp [fsExists_append, hdir])]
          rw [if_pos (by simp [fsExists_append, fsExists])]
      · rw [if_pos (by simp [Bool.not_eq_true] at hdir; simp [hdir])] at h
        simp at h

theorem metamap_no_write_cases (root : String) (t : Option (List Char))
    (f : String) (fs : FS) :
    metamapWriteInput root none (some f) fs = (false, fs) ∧
    metamapWriteInput root (some []) (some f) fs = (false, fs) ∧
    metamapWriteInput root t none fs = (false, fs) ∧
    (fsExists fs (root ++ "/metamap_input") = false →
      metamapWriteInput root t (some f) fs = (false, fs)) ∧
    (fsExists fs (root ++ "/metamap_input" ++ "/" ++ f) = true →
      metamapWriteInput root t (some f) fs = (false, fs)) := by
  refine ⟨rfl, rfl, ?_, ?_, ?_⟩
  · cases t <;> rfl
  · intro hdir
    cases t with
    | none => rfl
    | some tt =>
      simp only [metamapWriteInput]
      by_cases hlen : tt.length < 1
      · rw [if_pos hlen]
      · rw [if_neg hlen, if_pos (by simp [hdir])]
  · intro hfile
    cases t with
    | none => rfl
    | some tt =>
      simp only [metamapWriteInput]
      by_cases hlen : tt.length < 1
      · rw [if_pos hlen]
      · rw [if_neg hlen]
        by_cases hdir : fsExists fs (root ++ "/metamap_input") = true
        · rw [if_neg (by simp [hdir]), if_pos hfile]
        · rw [if_pos (by simp [Bool.not_eq_true] at hdir; simp [hdir])]

theorem metamap_write_once (root : String) (t : Option (List Char)) (f : String)
    (fs fs' : FS) (h : metamapWriteInput root t (some f) fs = (true, fs')) :
    metamapWriteInput root t (some f) fs' = (false, fs') := by
  cases t with
  | none => simp [metamapWriteInput] at h
  | some tt =>
    simp only [metamapWriteInput] at h ⊢
    by_cases hlen : tt.length < 1
    · rw [if_pos hlen] at h; simp at h
    · rw [if_neg hlen] at h
      rw [if_neg hlen]
      by_cases hdir : fsExists fs (root ++ "/metamap_input") = true
      · rw [if_neg (by simp [hdir])] at h
        by_cases hfile : fsExists fs (root ++ "/metamap_input" ++ "/" ++ f) = true
        · rw [if_pos hfile] at h; simp at h
        · rw [if_neg hfile] at h
          simp only [Prod.mk.injEq, true_and] at h
          rw [← h]
          rw [if_neg (by simp [fsExists_append, hdir])]
          rw [if_pos (by simp [fsExists_append, fsExists])]
      · rw [if_pos (by simp [Bool.not_eq_true] at hdir; simp [hdir])] at h
        simp at h

/-- **C5.** For both adapters, `write_input` returns false with the
filesystem unchanged when the text is absent or empty, the filename is
absent, the input directory is missing, or the file already exists; and
after a successful write, a repeated write of the same filename fails
and changes nothing — at most one input file per (unit, engine) and no
overwrite. -/
theorem C5_write_input_write_once (root : Option String) (mroot : String)
    (t : Option (List Char)) (f : String) (fs : FS) :
    (ctakesWriteInput root none (some f) fs = (false, fs) ∧
     ctakesWriteInput root (some []) (some f) fs = (false, fs) ∧
     ctakesWriteInput root t none fs = (false, fs) ∧
     (fsExists fs ((root.getD ".") ++ "/ctakes_input") = false →
       ctakesWriteInput root t (some f) fs = (false, fs)) ∧
     (fsExists fs ((root.getD ".") ++ "/ctakes_input" ++ "/" ++ f) = true →
       ctakesWriteInput root t (some f) fs = (false, fs)) ∧
     (∀ fs', ctakesWriteInput root t (some f) fs = (true, fs') →
       ctakesWriteInput root t (some f) fs' = (false, fs'))) ∧
    (metamapWriteInput mroot none (some f) fs = (false, fs) ∧
     metamapWriteInput mroot (some []) (some f) fs = (false, fs) ∧
     metamapWriteInput mroot t none fs = (false, fs) ∧
     (fsExists fs (mroot ++ "/metamap_input") = false →
       metamapWriteInput mroot t (some f) fs = (false, fs)) ∧
     (fsExists fs (mroot ++ "/metamap_input" ++ "/" ++ f) = true →
       metamapWriteInput mroot t (some f) fs = (false, fs)) ∧
     (∀ fs', metamapWriteInput mroot t (some f) fs = (true, fs') →
       metamapWriteInput mroot t (some f) fs' = (false, fs'))) := by
  obtain ⟨c1, c2, c3, c4, c5⟩ := ctakes_no_write_cases root t f fs
  obtain ⟨m1, m2, m3, m4, m5⟩ := metamap_no_write_cases mroot t f fs
  exact ⟨⟨c1, c2, c3, c4, c5, fun fs' h => ctakes_write_once root t f fs fs' h⟩,
         ⟨m1, m2, m3, m4, m5, fun fs' h => metamap_write_once mroot t f fs fs' h⟩⟩

/-- Witness for C5: a first write succeeds, the immediate second write of
the same filename fails and leaves the filesystem unchanged (both
adapters); likewise the missing-directory case returns false unchanged. -/
theorem C5_write_input_write_once_witness :
    (ctakesWriteInput (some "run") (some "Pregnant".data) (some "u1.txt")
        [("run/ctakes_input", [])] =
      (true, [("run/ctakes_input", []),
              ("run/ctakes_input/u1.txt", "Pregnant.".data)]) ∧
     ctakesWriteInput (some "run") (some "Pregnant".data) (some "u1.txt")
        [("run/ctakes_input", []), ("run/ctakes_input/u1.txt", "Pregnant.".data)] =
      (false, [("run/ctakes_input", []),
               ("run/ctakes_input/u1.txt", "Pregnant.".data)])) ∧
    (metamapWriteInput "run" (some "Pregnant".data) (some "u1.txt")
        [("run/metamap_input", [])] =
      (true, [("run/metamap_input", []),
              ("run/metamap_input/u1.txt", "Pregnant".data)]) ∧
     metamapWriteInput "run" (some "Pregnant".data) (some "u1.txt")
        [("run/metamap_input", []), ("run/metamap_input/u1.txt", "Pregnant".data)] =
      (false, [("run/metamap_input", []),
               ("run/metamap_input/u1.txt", "Pregnant".data)])) := by
  have hc := (C5_write_input_write_once (some "run") "run" (some "Pregnant".data)
    "u1.txt" [("run/ctakes_input", [])]).1
  have hm := (C5_write_input_write_once (some "run") "run" (some "Pregnant".data)
    "u1.txt" [("run/metamap_input", [])]).2
  exact ⟨⟨rfl, hc.2.2.2.2.2 _ rfl⟩, ⟨rfl, hm.2.2.2.2.2 _ rfl⟩⟩

/-! ### C7: the unit identifier is not a stable function of (object, property) -/

/-- **C7.** `Analyzable.uuid` lazily draws `uuid.uuid4()` — a value of the
process's random stream — and caches it per instance.  The identifier (a)
is stable on one instance (a second access returns the cached value), but
(b) constructing the unit again for the same (object, keypath) pair draws
the next stream value, which differs whenever the stream does not repeat:
the identifier is not a function of the pair, so the derived filename
changes across re-construction (e.g. after a process restart). -/
theorem C7_uuid_not_stable {O : Type} (g : Nat → Nat) (hg : Function.Injective g)
    (obj : Option O) (keypath : Option String) (ctr : Nat) :
    ((analyzableUuid g ctr (analyzableInit obj keypath)).1 = g ctr) ∧
    ((analyzableUuid g ((analyzableUuid g ctr (analyzableInit obj keypath)).2.1)
        ((analyzableUuid g ctr (analyzableInit obj keypath)).2.2)).1 =
      (analyzableUuid g ctr (analyzableInit obj keypath)).1) ∧
    ((analyzableUuid g ((analyzableUuid g ctr (analyzableInit obj keypath)).2.1)
        (analyzableInit obj keypath)).1 ≠
      (analyzableUuid g ctr (analyzableInit obj keypath)).1) := by
  refine ⟨rfl, rfl, ?_⟩
  simp only [analyzableInit, analyzableUuid, uuid4]
  intro h
  exact Nat.succ_ne_self ctr (hg h)

/-- Witness for C7 with the identity stream: the first draw is `0`, the
same instance keeps `0`, and a fresh instance for the same pair gets `1`. -/
theorem C7_uuid_not_stable_witness :
    ((analyzableUuid id 0 (analyzableInit (none : Option Unit) (some "eligibility"))).1
        = id 0) ∧
    ((analyzableUuid id
        ((analyzableUuid id 0 (analyzableInit (none : Option Unit) (some "eligibility"))).2.1)
        ((analyzableUuid id 0 (analyzableInit (none : Option Unit) (some "eligibility"))).2.2)).1 =
      (analyzableUuid id 0 (analyzableInit (none : Option Unit) (some "eligibility"))).1) ∧
    ((analyzableUuid id
        ((analyzableUuid id 0 (analyzableInit (none : Option Unit) (some "eligibility"))).2.1)
        (analyzableInit (none : Option Unit) (some "eligibility"))).1 ≠
      (analyzableUuid id 0 (analyzableInit (none : Option Unit) (some "eligibility"))).1) :=
  C7_uuid_not_stable id (fun _ _ h => h) none (some "eligibility") 0

/-! ### C6: an engine failure breaks the engine loop -/

/-- **C6 counterexample.** Two engines both have waiting units; the first
one's `run()` raises.  In catch mode the loop `break`s: the second
engine is never run (its name is missing from the list of engines run),
contrary to the claim that the coordinator still invokes `run()` for
every remaining engine with waiting units. -/
theorem C6_counterexample :
    runnerEnginePass true [⟨"ctakes", true⟩, ⟨"metamap", false⟩]
      ["ctakes", "metamap"] [] = .ok ([], false) := rfl

/-- **C6 (amended).** When an engine whose name is in `nlp_to_run` raises
in catch mode, the engines before it that were due have been run, the
`success` flag is false, and the loop breaks: engines after the failing
one are never consulted (the result does not depend on them).  Because
`success` is false, the second codify pass is skipped, so the trial states
— including codes harvested before the failure — are left unchanged. -/
theorem C6_engine_failure_aborts_stage (pre post : List RunEngine) (e : RunEngine)
    (toRun ran : List String)
    (hpre : ∀ p ∈ pre, p.failsRun = false ∨ toRun.contains p.name = false)
    (he1 : e.failsRun = true) (he2 : toRun.contains e.name = true) :
    runnerEnginePass true (pre ++ e :: post) toRun ran =
      .ok (ran ++ (pre.filter (fun p => toRun.contains p.name)).map RunEngine.name,
           false) ∧
    (∀ (α : Type) (codifyOne : α → α) (trials : List α),
      runnerHarvestPass false codifyOne trials = trials) := by
  refine ⟨?_, fun α codifyOne trials => rfl⟩
  induction pre generalizing ran with
  | nil =>
    simp only [List.nil_append, runnerEnginePass]
    rw [if_pos (by simpa using he2), if_pos he1]
    simp
  | cons p ps ih =>
    simp only [List.cons_append, runnerEnginePass, List.append_eq]
    by_cases hin : toRun.contains p.name = true
    · have hpf : p.failsRun = false := by
        rcases hpre p (by simp) with h | h
        · exact h
        · rw [hin] at h; simp at h
      rw [if_pos (by simpa using hin), if_neg (by simp [hpf])]
      rw [ih (ran ++ [p.name]) (fun d hd => hpre d (by simp [hd]))]
      have hmem : p.name ∈ toRun := by simpa using hin
      simp [List.filter_cons, hmem]
    · simp only [Bool.not_eq_true] at hin
      rw [if_neg (by simpa using hin)]
      rw [ih ran (fun d hd => hpre d (by simp [hd]))]
      have hmem : ¬ p.name ∈ toRun := by simpa using hin
      simp [List.filter_cons, hmem]

/-- Witness for C6 (amended): engine `tagger` (due, succeeds) runs,
`ctakes` (due) fails, `metamap` (due) is behind the break and never runs;
the skipped harvest pass leaves a concrete trial list unchanged. -/
theorem C6_engine_failure_aborts_stage_witness :
    runnerEnginePass true
        [⟨"tagger", false⟩, ⟨"ctakes", true⟩, ⟨"metamap", false⟩]
        ["tagger", "ctakes", "metamap"] [] = .ok (["tagger"], false) ∧
    runnerHarvestPass false (fun n => n + 1) [1, 2, 3] = [1, 2, 3] := by
  have h := C6_engine_failure_aborts_stage [⟨"tagger", false⟩] [⟨"metamap", false⟩]
    ⟨"ctakes", true⟩ ["tagger", "ctakes", "metamap"] []
    (by decide) rfl (by decide)
  exact ⟨h.1, h.2 Nat (fun n => n + 1) [1, 2, 3]⟩

/-! ### C1: attempted-empty does not suppress a re-attempt -/

/-- **C1 counterexample.** A unit holding a recorded attempted-empty
attempt for `ctakes` (`codified = {"ctakes": None}`, which is what
`parse_nlp_output` stores when an attempt found zero codes), `force=false`:
`codify` does not skip the engine — it calls `parse_output` again and,
with no output available, invokes `write_input` and re-adds the engine to
the waiting set. -/
theorem C1_counterexample :
    codify [⟨"ctakes", none, true⟩] false (some "Pregnant".data) 7
      ⟨some [("ctakes", none)], []⟩ =
      .ok (none, ⟨some [("ctakes", none)], ["ctakes"]⟩,
        [.parsedOutput "ctakes", .wroteInput "ctakes"]) := rfl

/-- **C1 (amended).** With `force=false`, `codify` skips engine `e` only
when the recorded attempt for `e` is a non-`None` record, i.e. an attempt
that stored at least one code-system entry; then it performs no engine
call at all and leaves the unit unchanged.  An attempted-empty attempt is
stored as `None` and is re-attempted exactly like a never-attempted
engine (it does cause a parse and possibly a write). -/
theorem C1_skip_only_with_codes (engines : List EngineIO) (text : Option (List Char))
    (now : Nat) (st : AnalyzableState) (m : CodifiedMap)
    (hm : st.codified = some m)
    (hall : ∀ e ∈ engines, ∃ rec, assocGet m e.name = some (some rec)) :
    codify engines false text now st = .ok (none, st, []) := by
  have hloop : ∀ (es : List EngineIO) (allNew : List (String × Option NLPRecord))
      (evs : List NLPEvent), (∀ e ∈ es, ∃ rec, assocGet m e.name = some (some rec)) →
      codifyLoop false text now es st allNew evs = .ok (allNew, st, evs) := by
    intro es
    induction es with
    | nil => intro allNew evs _; rfl
    | cons e rest ih =>
      intro allNew evs hall'
      obtain ⟨rec, hrec⟩ := hall' e (by simp)
      have hskip : codifyAttempts false st e.name = false := by
        simp [codifyAttempts, hm, hrec]
      rw [codifyLoop, if_neg (by simp [hskip])]
      exact ih allNew evs (fun d hd => hall' d (by simp [hd]))
  rw [codify, hloop engines [] [] hall]
  rfl

/-- Witness for C1 (amended): a unit whose `ctakes` attempt recorded a
snomed code is skipped even though new output is available. -/
theorem C1_skip_only_with_codes_witness :
    codify [⟨"ctakes", some [("cui", some ["C0032961"])], true⟩] false
      (some "Pregnant".data) 9
      ⟨some [("ctakes", some ⟨5, [("snomed", ["73211009"])]⟩)], []⟩ =
      .ok (none, ⟨some [("ctakes", some ⟨5, [("snomed", ["73211009"])]⟩)], []⟩, []) :=
  C1_skip_only_with_codes _ _ 9 _ [("ctakes", some ⟨5, [("snomed", ["73211009"])]⟩)]
    rfl (by intro e he; simp at he; rw [he]; exact ⟨⟨5, [("snomed", ["73211009"])]⟩, rfl⟩)

/-! ### C10: re-parsing after an attempted-empty attempt raises -/

/-- **C10.** After an attempted-empty attempt (stored as `None`), a later
`codify` in which the engine's output exists again does not complete
normally: `result_all.get(name, {})` returns the stored `None` and
`result.get('codes', {})` raises an `AttributeError`, which `codify` does
not catch. -/
theorem C10_reparse_after_empty_raises :
    codify [⟨"ctakes", some [("snomed", some ["73211009"])], true⟩] false
      (some "Pregnant".data) 7 ⟨some [("ctakes", none)], []⟩ =
      .error "AttributeError: 'NoneType' object has no attribute 'get'" := rfl

/-! ### C3: merging is monotonic on `Analyzable`, but `force` is ignored
for criteria -/

theorem assocGet_assocSet_ne {β : Type} (m : List (String × β)) (k k' : String)
    (v : β) (h : k' ≠ k) : assocGet (assocSet m k v) k' = assocGet m k' := by
  induction m with
  | nil => simp [assocSet, assocGet, if_neg (Ne.symm h)]
  | cons kv rest ih =>
    by_cases hk : kv.1 = k
    · simp only [assocSet, if_pos hk]
      simp only [assocGet, if_neg (Ne.symm h)]
      rw [hk, if_neg (Ne.symm h)]
    · simp only [assocSet, if_neg hk]
      rcases kv with ⟨a, b⟩
      by_cases ha : a = k'
      · simp [assocGet, ha]
      · simp [assocGet, ha, ih]

/-- **C3 counterexample.** For a criterion unit, codifying once with
cTAKES returning `{snomed: [...]}` records the snomed list; a second pass
with `force = true` in which the engine now returns `{cui: [...]}` is
skipped — the `force` argument is ignored by the skip test — so the
criterion's cTAKES cui entry stays absent instead of being merged. -/
theorem C3_counterexample :
    (criterion_parse_nlp_output "ctakes" (some [("snomed", ["73211009"])]) false
        (freshCriterion "c1" false "Pregnant".data) =
      (true, { freshCriterion "c1" false "Pregnant".data with
                snomed := some ["73211009"] })) ∧
    (criterion_parse_nlp_output "ctakes" (some [("cui", ["C0032961"])]) true
        { freshCriterion "c1" false "Pregnant".data with
           snomed := some ["73211009"] }).2.cui_ctakes = none :=
  ⟨rfl, rfl⟩

/-- **C3 (amended).** On `Analyzable` units the claim holds: (a) a
successful parse for engine `e` never changes the recorded entry of any
other engine; (b) codifying once with `e` returning `{snomed: X}` and
then forcing a second pass in which `e` returns `{cui: Y}` yields a
record for `e` with both `snomed` and `cui` populated.  For
`EligibilityCriteria` criteria the `force` flag is ignored and the second
result is not merged (see the counterexample). -/
theorem C3_merge_monotonic_additive :
    (∀ (name : String) (ret : Option PRet) (now : Nat) (st : AnalyzableState)
       (b : Bool) (st' : AnalyzableState),
      parse_nlp_output name ret now st = .ok (b, st') →
      ∀ other, other ≠ name →
        assocGet (st'.codified.getD []) other = assocGet (st.codified.getD []) other) ∧
    (∀ (X Y : List String) (text : Option (List Char)) (wk : Bool) (t1 t2 : Nat),
      codify [⟨"e", some [("snomed", some X)], wk⟩] false text t1 ⟨none, []⟩ =
        .ok (some [("e", some ⟨t1, [("snomed", X)]⟩)],
          ⟨some [("e", some ⟨t1, [("snomed", X)]⟩)], []⟩, [.parsedOutput "e"]) ∧
      codify [⟨"e", some [("cui", some Y)], wk⟩] true text t2
          ⟨some [("e", some ⟨t1, [("snomed", X)]⟩)], []⟩ =
        .ok (some [("e", some ⟨t2, [("snomed", X), ("cui", Y)]⟩)],
          ⟨some [("e", some ⟨t2, [("snomed", X), ("cui", Y)]⟩)], []⟩,
          [.parsedOutput "e"])) := by
  constructor
  · intro name ret now st b st' h other hne
    cases ret with
    | none =>
      simp only [parse_nlp_output] at h
      simp only [Except.ok.injEq, Prod.mk.injEq] at h
      rw [← h.2]
    | some r =>
      simp only [parse_nlp_output] at h
      cases hres : assocGet (st.codified.getD []) name with
      | none =>
        rw [hres] at h
        simp only [Except.ok.injEq, Prod.mk.injEq] at h
        rw [← h.2]
        simp only [Option.getD_some]
        exact assocGet_assocSet_ne _ _ _ _ hne
      | some v =>
        cases v with
        | none =>
          rw [hres] at h
          simp at h
        | some prev =>
          rw [hres] at h
          simp only [Except.ok.injEq, Prod.mk.injEq] at h
          rw [← h.2]
          simp only [Option.getD_some]
          exact assocGet_assocSet_ne _ _ _ _ hne
  · intro X Y text wk t1 t2
    exact ⟨rfl, rfl⟩

/-- Witness for C3 (amended): the monotonicity part applied at a concrete
parse (a metamap result arriving on a unit that already has a ctakes
record leaves the ctakes record untouched), plus the concrete forced
two-pass scenario with disjoint code systems. -/
theorem C3_merge_monotonic_additive_witness :
    (assocGet
        ((⟨some [("ctakes", some ⟨5, [("snomed", ["73211009"])]⟩),
               ("metamap", some ⟨8, [("cui", ["C1"])]⟩)], []⟩ :
          AnalyzableState).codified.getD []) "ctakes" =
      assocGet
        ((⟨some [("ctakes", some ⟨5, [("snomed", ["73211009"])]⟩)], []⟩ :
          AnalyzableState).codified.getD []) "ctakes") ∧
    codify [⟨"e", some [("cui", some ["C0032961"])], true⟩] true none 9
        ⟨some [("e", some ⟨3, [("snomed", ["73211009"])]⟩)], []⟩ =
      .ok (some [("e", some ⟨9, [("snomed", ["73211009"]), ("cui", ["C0032961"])]⟩)],
        ⟨some [("e", some ⟨9, [("snomed", ["73211009"]), ("cui", ["C0032961"])]⟩)], []⟩,
        [.parsedOutput "e"]) := by
  have h := C3_merge_monotonic_additive
  refine ⟨h.1 "metamap" (some [("cui", some ["C1"])]) 8
      ⟨some [("ctakes", some ⟨5, [("snomed", ["73211009"])]⟩)], []⟩ true
      ⟨some [("ctakes", some ⟨5, [("snomed", ["73211009"])]⟩),
             ("metamap", some ⟨8, [("cui", ["C1"])]⟩)], []⟩ rfl "ctakes" (by decide), ?_⟩
  exact (h.2 ["73211009"] ["C0032961"] none true 3 9).2

/-! ### C2: waiting-set semantics -/

/-- **C2 counterexample.** The unit's input file already exists on disk,
no parse result is recorded and none is available, yet after `codify` the
engine is NOT in the unit's waiting set: `cTAKES.write_input` returns
`False` for an existing file, and `Analyzable.write_nlp_input` adds the
engine only when `write_input` returns `True`. -/
theorem C2_counterexample :
    (ctakesWriteInput (some "run") (some "Pregnant".data) (some "u1.txt")
        [("run/ctakes_input", []), ("run/ctakes_input/u1.txt", "Pregnant.".data)]).1
      = false ∧
    codify [⟨"ctakes", none,
        (ctakesWriteInput (some "run") (some "Pregnant".data) (some "u1.txt")
          [("run/ctakes_input", []),
           ("run/ctakes_input/u1.txt", "Pregnant.".data)]).1⟩]
      false (some "Pregnant".data) 7 ⟨none, []⟩ =
      .ok (none, ⟨none, []⟩, [.parsedOutput "ctakes", .wroteInput "ctakes"]) :=
  ⟨rfl, rfl⟩

/-- **C2 (amended).** `Analyzable.write_nlp_input` adds the engine to the
unit's waiting set exactly when the extracted text is non-empty and the
engine's `write_input` returned true (a new file was written); a failed
write — including failure because the file already exists — adds nothing.
`EligibilityCriteria.criterion_write_nlp_input` instead sets the waiting
flag when the write succeeds, or on any write failure while the engine's
cui list is absent or empty (even when no input file exists at all). -/
theorem C2_waiting_semantics (name : String) (st : AnalyzableState)
    (t : List Char) (writeOk : Bool) (c : Criterion) :
    (write_nlp_input none writeOk name st = (st, false)) ∧
    (write_nlp_input (some []) writeOk name st = (st, false)) ∧
    (t ≠ [] → write_nlp_input (some t) writeOk name st =
      (if writeOk then { st with waiting := setAdd st.waiting name } else st, true)) ∧
    ((criterion_write_nlp_input name true c).waiting_for_nlp =
      some (c.waiting_for_nlp.getD [] ++ [name])) ∧
    ((if name = "ctakes" then c.cui_ctakes else c.cui_metamap) = none →
      (criterion_write_nlp_input name false c).waiting_for_nlp =
        some (c.waiting_for_nlp.getD [] ++ [name])) := by
  refine ⟨rfl, rfl, ?_, ?_, ?_⟩
  · intro ht
    simp only [write_nlp_input]
    rw [if_neg (by simpa [List.length_eq_zero] using ht)]
    by_cases hw : writeOk = true
    · rw [hw]; simp
    · simp only [Bool.not_eq_true] at hw
      rw [hw]; simp
  · simp [criterion_write_nlp_input]
  · intro harr
    simp [criterion_write_nlp_input, harr]

/-- Witness for C2 (amended): with non-empty text and a failed write the
analyzable waiting set is unchanged; a fresh criterion (no cui codes) gets
the waiting flag even though its write failed. -/
theorem C2_waiting_semantics_witness :
    write_nlp_input (some "Pregnant".data) false "ctakes" ⟨none, []⟩ =
      (⟨none, []⟩, true) ∧
    (criterion_write_nlp_input "ctakes" false
        (freshCriterion "c1" false "Pregnant".data)).waiting_for_nlp =
      some ["ctakes"] := by
  have h := C2_waiting_semantics "ctakes" ⟨none, []⟩ "Pregnant".data false
    (freshCriterion "c1" false "Pregnant".data)
  refine ⟨?_, ?_⟩
  · have h3 := h.2.2.1 (by decide)
    simpa using h3
  · have h5 := h.2.2.2.2 (by rfl)
    simpa [freshCriterion] using h5

end CTNLP
